import Mathlib

/-!
Verification development for the Telegram join-request approver bot
(`src/app.py`).  The Python source is shallowly embedded below:

* `safe_approve` (app.py lines 76–115): the retrying executor around
  `bot.approve_chat_join_request`, modelled as a function of the stream of
  outcomes the remote call would produce on each successive attempt;
* `RateLimiter` (app.py lines 63–73): the interval-based rate limiter,
  with time as rationals;
* `bulk_approve_core` (app.py lines 246–305): the paginated bulk-approval
  loop, modelled as an event-trace generator over an abstract remote
  pending list;
* `button_handler` (app.py lines 184–227): the single-item inline-button
  handler over the `pending_requests` registry, modelled as an association
  list with unique keys.
-/

/--
The possible outcomes of one call to `bot.approve_chat_join_request`,
one constructor per `except` arm of `safe_approve` (app.py 83–115) plus
success.  In python-telegram-bot 21.6 the exception hierarchy is:
`RetryAfter`, `Forbidden ⊂ TelegramError`; `TimedOut`, `BadRequest ⊂
NetworkError ⊂ TelegramError`.  `retryAfter` carries the integer
`retry_after` field of the exception (the Bot API signals whole seconds).
`otherExc` stands for any exception reaching the final `except Exception`
arm (e.g. `ChatMigrated`, `Conflict`).
-/
inductive CallOutcome where
  | success
  | retryAfter (t : ℕ)
  | timedOut
  | networkError
  | badRequest
  | forbidden
  | otherExc
deriving DecidableEq, Repr

/--
One run of the `while True` loop of `safe_approve` (app.py 81–115)
starting at attempt index `a` with retry counter `retries` and `slept`
seconds of sleep already performed.  `attempts n` is the outcome the
remote call produces on the `n`-th attempt.  Returns
`(result, number of remote attempts issued, total seconds slept)`.

Faithfulness notes:
* `RetryAfter` arm (87–94): `wait = int(getattr(e, "retry_after", 3)) or 3`
  — `retry_after` is an `int` in python-telegram-bot, so `int(...)` is the
  identity and `or 3` replaces only the value `0`; the sleep happens
  before the `retries > 8` bound check, so even the failing exit sleeps.
* `(TimedOut, NetworkError)` arm (96–101): sleeps 2 then checks
  `retries > 6`.  Because `BadRequest` is a subclass of `NetworkError`
  in python-telegram-bot and `except` arms are tried in order, a
  `BadRequest` is caught HERE, by the network arm — the dedicated
  `except BadRequest` arm on line 108 is unreachable, so `badRequest`
  is routed to the network branch in this embedding.
* `Forbidden` (103–106) and the final `except Exception` (113–115)
  return `False` at once.
The single `retries` counter is shared between the two retrying arms,
exactly as in the source.
-/
def safeApproveAux (attempts : ℕ → CallOutcome) (a : ℕ) (retries : ℕ)
    (slept : ℕ) : Bool × ℕ × ℕ :=
  match attempts a with
  | .success => (true, a + 1, slept)
  | .retryAfter t =>
      if h : 8 < retries + 1 then
        (false, a + 1, slept + (if t = 0 then 3 else t))
      else
        safeApproveAux attempts (a + 1) (retries + 1)
          (slept + (if t = 0 then 3 else t))
  | .timedOut =>
      if h : 6 < retries + 1 then (false, a + 1, slept + 2)
      else safeApproveAux attempts (a + 1) (retries + 1) (slept + 2)
  | .networkError =>
      if h : 6 < retries + 1 then (false, a + 1, slept + 2)
      else safeApproveAux attempts (a + 1) (retries + 1) (slept + 2)
  | .badRequest =>
      if h : 6 < retries + 1 then (false, a + 1, slept + 2)
      else safeApproveAux attempts (a + 1) (retries + 1) (slept + 2)
  | .forbidden => (false, a + 1, slept)
  | .otherExc => (false, a + 1, slept)
termination_by 9 - retries
decreasing_by all_goals omega

/-- `safe_approve` (app.py 76): run the retry loop from a fresh state. -/
def safe_approve (attempts : ℕ → CallOutcome) : Bool × ℕ × ℕ :=
  safeApproveAux attempts 0 0 0

/--
Events observable during one `bulk_approve_core` run (app.py 246–305),
in the order the single asyncio loop awaits them:
* `fetch n` — one `get_chat_join_requests` call returned `n` entries
  (line 263);
* `enqueue u` — `queue.put_nowait(r.user.id)` for applicant `u`
  (line 282);
* `consume u ok` — a worker pulled `u`, passed `limiter.wait()` and ran
  `safe_approve`, which returned `ok` (lines 234–243); within-page
  completion order is serialised in enqueue order here (the code gives no
  ordering guarantee among workers, only that all jobs finish before
  `queue.join()` returns);
* `drained` — `await queue.join()` returned (line 293);
* `sentinels` — the `None` sentinels were enqueued (lines 294–295);
* `joined` — `await asyncio.gather(*workers)` returned (line 296).
-/
inductive BulkEvent where
  | fetch (n : ℕ)
  | enqueue (u : ℕ)
  | consume (u : ℕ) (ok : Bool)
  | drained
  | sentinels
  | joined
deriving DecidableEq, Repr

/-- Python truthiness of `limit and approved_total >= limit`
(app.py lines 280 and 300): `None` and `0` are falsy, so a limit of
`none` or `some 0` never caps. -/
def capReached (limit : Option ℕ) (tot : ℕ) : Bool :=
  match limit with
  | none => false
  | some l => l != 0 && decide (l ≤ tot)

/--
The `while True` loop of `bulk_approve_core` (app.py 261–303) as an
event-trace generator.  The remote system is abstracted per spec §6:
`remote` is the current remote pending list (applicant ids in the
remote's order), a fetch returns its first 200 entries (`page_size`,
line 252/263), and an approved applicant disappears from the remote
list while a failed one stays.  `ok u` is the result `safe_approve`
produces for applicant `u` (all workers share it).  `fuel` bounds the
number of loop iterations so the definition is total; a run whose
remote list empties or whose cap is reached terminates with fuel to
spare.  Returns `(events, approved_total, finished?)` where `finished?`
is false only when fuel ran out first.

Note the cap logic: the per-entry check on line 280 compares
`approved_total >= limit`, and `approved_total` is only updated after
the page drains (line 298), so the check is constant within a page —
either the whole page is enqueued or nothing is.  The 0.5 s inter-page
pause (line 303) and the admin progress messages are not mutating
actions and are not recorded as trace events.
-/
def bulkLoop (ok : ℕ → Bool) (limit : Option ℕ) :
    ℕ → List ℕ → ℕ → List BulkEvent × ℕ × Bool
  | 0, _, tot => ([], tot, false)
  | fuel + 1, remote, tot =>
    let page := remote.take 200
    if page.isEmpty then ([.fetch page.length], tot, true)
    else
      let jobs := if capReached limit tot then [] else page
      if jobs.isEmpty then (.fetch page.length :: jobs.map .enqueue, tot, true)
      else
        let tot2 := tot + (jobs.filter ok).length
        let remote2 := page.filter (fun u => !ok u) ++ remote.drop 200
        let block := .fetch page.length :: jobs.map .enqueue ++
          jobs.map (fun u => .consume u (ok u)) ++ [.drained, .sentinels, .joined]
        if capReached limit tot2 then (block, tot2, true)
        else
          let rest := bulkLoop ok limit fuel remote2 tot2
          (block ++ rest.1, rest.2)

/-- `bulk_approve_core` (app.py 246): run the loop with
`approved_total = 0`.  `limit` is the `limit` argument
(`None` for `/approve_all`). -/
def bulk_approve_core (ok : ℕ → Bool) (remote : List ℕ) (limit : Option ℕ)
    (fuel : ℕ) : List BulkEvent × ℕ × Bool :=
  bulkLoop ok limit fuel remote 0

/-- Number of `get_chat_join_requests` calls recorded in a trace. -/
def numFetches (tr : List BulkEvent) : ℕ :=
  (tr.filter fun e => match e with | .fetch _ => true | _ => false).length

/-- The sizes of the successive fetched pages recorded in a trace. -/
def fetchSizes (tr : List BulkEvent) : List ℕ :=
  tr.filterMap fun e => match e with | .fetch n => some n | _ => none

/-- Number of jobs enqueued (`queue.put_nowait`) recorded in a trace. -/
def numEnqueues (tr : List BulkEvent) : ℕ :=
  (tr.filter fun e => match e with | .enqueue _ => true | _ => false).length

/-- Number of jobs consumed by workers recorded in a trace. -/
def numConsumed (tr : List BulkEvent) : ℕ :=
  (tr.filter fun e => match e with | .consume _ _ => true | _ => false).length

/--
Parser state for `pagedTrace`: what a well-formed bulk trace may show
next.  `enqueuePhase q` means a page was fetched and the jobs in `q`
are enqueued but not yet consumed; `consumePhase q` means consumption
started with `q` still outstanding.
-/
inductive PageSt where
  | expectFetch
  | enqueuePhase (q : List ℕ)
  | consumePhase (q : List ℕ)
  | expectDrained
  | expectSentinels
  | expectJoined
deriving DecidableEq, Repr

/--
Recogniser for the sequential-page discipline the spec claims of the
bulk engine: each page's fetch is followed by its enqueues; every
enqueued job is consumed — in queue order — before the `drained` mark;
`drained` precedes the sentinel sends, which precede the worker join;
and only then may the next fetch occur.  A trace may end right after a
fetch whose page enqueued nothing (the `not reqs` / `qsize() == 0`
exits) or at a page boundary.
-/
def pagedTrace : PageSt → List BulkEvent → Bool
  | .expectFetch, [] => true
  | .expectFetch, .fetch _ :: es => pagedTrace (.enqueuePhase []) es
  | .enqueuePhase [], [] => true
  | .enqueuePhase q, .enqueue u :: es => pagedTrace (.enqueuePhase (q ++ [u])) es
  | .enqueuePhase (v :: q), .consume u _ :: es =>
      decide (v = u) &&
        pagedTrace (if q.isEmpty then .expectDrained else .consumePhase q) es
  | .consumePhase (v :: q), .consume u _ :: es =>
      decide (v = u) &&
        pagedTrace (if q.isEmpty then .expectDrained else .consumePhase q) es
  | .expectDrained, .drained :: es => pagedTrace .expectSentinels es
  | .expectSentinels, .sentinels :: es => pagedTrace .expectJoined es
  | .expectJoined, .joined :: es => pagedTrace .expectFetch es
  | _, _ => false

/-- The recogniser state after consuming one job with `q` still
outstanding: the drain mark is next once the queue is empty. -/
def afterConsume (q : List ℕ) : PageSt :=
  if q.isEmpty then .expectDrained else .consumePhase q

/--
The `RateLimiter` of app.py 63–73.  `min_interval = 1.0 / max(1.0, rps)`
and `next` is the `_next` field; time is modelled by ℚ (the value of
`time.monotonic()`).
-/
structure RateLimiter where
  min_interval : ℚ
  next : ℚ
deriving DecidableEq, Repr

/-- `RateLimiter.__init__` (app.py 65–67) at current time `now`. -/
def RateLimiter.init (rps : ℚ) (now : ℚ) : RateLimiter :=
  ⟨1 / max 1 rps, now⟩

/--
The part of `RateLimiter.wait` before its suspension point (app.py
70–72): read `now = monotonic()`; if `now < self._next` the task
suspends until `self._next` (returned as `some wakeTime`), otherwise it
does not suspend (`none`).  Under asyncio this check runs atomically;
the task only yields control inside `asyncio.sleep`.
-/
def RateLimiter.checkPhase (l : RateLimiter) (now : ℚ) : Option ℚ :=
  if now < l.next then some l.next else none

/--
The part of `RateLimiter.wait` after the suspension point (app.py 73),
executed at resume time `now` against the *current* limiter state:
`self._next = max(self._next + self.min_interval, monotonic())`, then
the call returns — the admission instant is `now`.
-/
def RateLimiter.resumePhase (l : RateLimiter) (now : ℚ) : ℚ × RateLimiter :=
  (now, ⟨l.min_interval, max (l.next + l.min_interval) now⟩)

/--
`RateLimiter.wait` when the call runs without interleaving (no other
task touches the limiter between its check and its resume): a call
arriving at `now` admits at `max now _next` and bumps `_next`.
-/
def RateLimiter.wait (l : RateLimiter) (now : ℚ) : ℚ × RateLimiter :=
  match l.checkPhase now with
  | some w => l.resumePhase w
  | none => l.resumePhase now

/-- Admission instants of a sequence of non-overlapping `wait` calls
arriving at the given times. -/
def admitTimes (l : RateLimiter) : List ℚ → List ℚ
  | [] => []
  | now :: rest => (l.wait now).1 :: admitTimes (l.wait now).2 rest

/--
One concurrent schedule of four `RateLimiter.wait` calls all issued at
time 0 against a fresh limiter with `rps = 1`, exactly as asyncio would
run them: task 1's check does not suspend (`_next` equals `monotonic()`
at construction), so its whole call runs atomically; tasks 2–4 then all
run their checks while `_next` holds the same value `l1.next`, so all
three suspend until that instant and, when the loop wakes them, resume
one after another at that same time.  The list collects the four
admission instants.
-/
def burstAdmissions : List ℚ :=
  let l0 := RateLimiter.init 1 0
  let r1 := l0.resumePhase 0
  let l1 := r1.2
  let r2 := l1.resumePhase l1.next
  let r3 := r2.2.resumePhase l1.next
  let r4 := r3.2.resumePhase l1.next
  [r1.1, r2.1, r3.1, r4.1]

/-- How many admission instants fall in the rolling 1-second window
starting at `s` (timestamps younger than 1 second, half-open). -/
def admissionsInWindow (ts : List ℚ) (s : ℚ) : ℕ :=
  (ts.filter fun t => decide (s ≤ t) && decide (t < s + 1)).length

/--
A Telegram user as `pending_requests` stores it (app.py 59): the
snapshot kept with a pending join request.
-/
structure TgUser where
  id : ℕ
  first_name : String
  full_name : String
deriving DecidableEq, Repr

/-- The `pending_requests` dict `{user_id: (chat_id, user_obj)}`
(app.py 59), as an association list with unique keys. -/
abbrev PendingDict : Type := List (ℕ × ℕ × TgUser)

/-- `user_id in pending_requests` followed by
`pending_requests.pop(user_id)` (app.py 200–204): `none` when the key
is absent, otherwise the stored `(chat_id, user)` and the dict without
that key. -/
def dictPop (d : PendingDict) (k : ℕ) :
    Option ((ℕ × TgUser) × PendingDict) :=
  match List.lookup k d with
  | none => none
  | some v => some (v, d.eraseP (fun p => p.1 == k))

/-- What `button_handler` did: the text passed to
`query.edit_message_text` (if any), the registry afterwards, and how
many remote mutating calls of each kind were attempted. -/
structure HandlerResult where
  reply : Option String
  pending : PendingDict
  approveAttempts : ℕ
  declineAttempts : ℕ
deriving DecidableEq, Repr

/--
`button_handler` (app.py 184–227).  Inputs: the admin allow-list
`admins` (ADMIN_IDS), the caller's id, the parsed callback data —
`none` when `query.data.split(":")` raises `ValueError` (line 196),
otherwise `(action, chat_id, user_id)` — the current
`pending_requests` dict, the outcome stream `outcomes` that
`safe_approve`'s remote calls would see, and `declineErr`, the
exception message if `decline_chat_join_request` would raise (`none`
for success).

The welcome-message send after a successful approval (lines 214–217)
and `query.answer()` are non-mutating sends and are not counted.
`approveAttempts` counts the remote `approve_chat_join_request`
attempts `safe_approve` issues.  Note the registry `pop` on line 204
happens before the `chat_id != chat_id_stored` comparison on line 205,
so a mismatching callback still consumes the entry.
-/
def button_handler (admins : List ℕ) (caller : ℕ)
    (data : Option (String × ℕ × ℕ)) (pending : PendingDict)
    (outcomes : ℕ → CallOutcome) (declineErr : Option String) :
    HandlerResult :=
  if caller ∈ admins then
    match data with
    | none => ⟨some "Hatalı veri.", pending, 0, 0⟩
    | some (action, chat_id, user_id) =>
      match dictPop pending user_id with
      | none => ⟨some "İstek zaten işlenmiş.", pending, 0, 0⟩
      | some ((chat_id_stored, user), pending2) =>
        if chat_id ≠ chat_id_stored then
          ⟨some "Veri uyuşmuyor.", pending2, 0, 0⟩
        else if action = "approve" then
          let r := safe_approve outcomes
          if r.1 then
            ⟨some ("✅ " ++ user.full_name ++ " onaylandı."), pending2, r.2.1, 0⟩
          else
            ⟨some "Onaylanamadı (loglara bakınız).", pending2, r.2.1, 0⟩
        else if action = "decline" then
          match declineErr with
          | none =>
              ⟨some ("❌ " ++ user.full_name ++ " reddedildi."), pending2, 0, 1⟩
          | some e => ⟨some ("Reddetme hatası: " ++ e), pending2, 0, 1⟩
        else ⟨none, pending2, 0, 0⟩
  else ⟨some "⛔ Bu işlem için yetkin yok.", pending, 0, 0⟩

/-- The number of remote attempts `safe_approve` issues from state
`(a, retries)` is at most `a + 1 + (8 - retries)`: each retrying arm
increments the shared counter and the loop exits once it passes its
bound. -/
theorem safeApproveAux_attempts_le (attempts : ℕ → CallOutcome)
    (a retries slept : ℕ) :
    (safeApproveAux attempts a retries slept).2.1 ≤ a + 1 + (8 - retries) := by
  induction a, retries, slept using safeApproveAux.induct attempts with
  | case1 a r s h =>
      rw [safeApproveAux.eq_def, h]
      dsimp only
      omega
  | case2 a r s t h hb =>
      rw [safeApproveAux.eq_def, h]
      simp only [dif_pos hb]
      omega
  | case3 a r s t h hb ih =>
      rw [safeApproveAux.eq_def, h]
      simp only [dif_neg hb]
      simp only [dite_eq_ite] at ih
      omega
  | case4 a r s h hb =>
      rw [safeApproveAux.eq_def, h]
      simp only [dif_pos hb]
      omega
  | case5 a r s h hb ih =>
      rw [safeApproveAux.eq_def, h]
      simp only [dif_neg hb]
      simp only [dite_eq_ite] at ih
      omega
  | case6 a r s h hb =>
      rw [safeApproveAux.eq_def, h]
      simp only [dif_pos hb]
      omega
  | case7 a r s h hb ih =>
      rw [safeApproveAux.eq_def, h]
      simp only [dif_neg hb]
      simp only [dite_eq_ite] at ih
      omega
  | case8 a r s h hb =>
      rw [safeApproveAux.eq_def, h]
      simp only [dif_pos hb]
      omega
  | case9 a r s h hb ih =>
      rw [safeApproveAux.eq_def, h]
      simp only [dif_neg hb]
      simp only [dite_eq_ite] at ih
      omega
  | case10 a r s h =>
      rw [safeApproveAux.eq_def, h]
      dsimp only
      omega
  | case11 a r s h =>
      rw [safeApproveAux.eq_def, h]
      dsimp only
      omega

/-- Helper: the branch taken by `safe_approve` on a stream whose first
outcome is `RetryAfter T` and whose second is success. -/
theorem safe_approve_retry_then_success (T : ℕ) :
    safe_approve
      (fun n => if n = 0 then CallOutcome.retryAfter T else CallOutcome.success)
      = (true, 2, if T = 0 then 3 else T) := by
  rw [safe_approve, safeApproveAux.eq_def]
  simp only [if_pos rfl]
  norm_num
  rw [safeApproveAux.eq_def]
  norm_num

/--
C4: if the first remote attempt fails with `RetryAfter` carrying a
retry-after duration `T` (an integer number of seconds, as the Bot API
signals it) and the second attempt succeeds, `safe_approve` returns
`True` after exactly those 2 attempts, and the time slept between the
two attempts — `int(retry_after) or 3`, i.e. `T` itself unless `T = 0`,
in which case 3 — is at least `T`.
-/
theorem C4_retryafter_sleeps_then_succeeds (T : ℕ) :
    safe_approve
      (fun n => if n = 0 then CallOutcome.retryAfter T else CallOutcome.success)
      = (true, 2, if T = 0 then 3 else T) ∧
    T ≤ (safe_approve
      (fun n => if n = 0 then CallOutcome.retryAfter T else CallOutcome.success)).2.2 := by
  refine ⟨safe_approve_retry_then_success T, ?_⟩
  rw [safe_approve_retry_then_success T]
  by_cases hT : T = 0
  · simp [hT]
  · simp [hT]

/--
C5: `safe_approve`'s retries are bounded.  (1) On every outcome stream
it issues at most 9 remote attempts — the shared `retries` counter
passes one of its bounds (8 for `RetryAfter`, 6 for network/timeout)
before a tenth attempt can happen, so it never retries indefinitely
(totality of the model is itself the termination of the source loop).
(2) Under persistent `RetryAfter` failures it stops once the counter
exceeds 8, returning `False` after 9 attempts; (3) under persistent
timeouts it stops once the counter exceeds 6, returning `False` after
7 attempts.
-/
theorem C5_retries_bounded :
    (∀ f : ℕ → CallOutcome, (safe_approve f).2.1 ≤ 9) ∧
    safe_approve (fun _ => CallOutcome.retryAfter 1) = (false, 9, 9) ∧
    safe_approve (fun _ => CallOutcome.timedOut) = (false, 7, 14) := by
  refine ⟨fun f => safeApproveAux_attempts_le f 0 0 0, ?_, ?_⟩
  · rw [safe_approve]
    iterate 9 (rw [safeApproveAux.eq_def]; norm_num)
  · rw [safe_approve]
    iterate 7 (rw [safeApproveAux.eq_def]; norm_num)

/-- Helper for C6: if the `n`-th outcome is `Forbidden`, the loop
started at attempt `a ≤ n` never runs an attempt past index `n`, and if
it reaches attempt `n` it returns `False` there. -/
theorem safeApproveAux_forbidden_stops (attempts : ℕ → CallOutcome) (n : ℕ)
    (hn : attempts n = CallOutcome.forbidden) :
    ∀ a retries slept, a ≤ n →
      (safeApproveAux attempts a retries slept).2.1 ≤ n + 1 ∧
      ((safeApproveAux attempts a retries slept).2.1 = n + 1 →
        (safeApproveAux attempts a retries slept).1 = false) := by
  intro a retries slept
  induction a, retries, slept using safeApproveAux.induct attempts with
  | case1 a r s h =>
      intro han
      rw [safeApproveAux.eq_def, h]
      dsimp only
      constructor
      · omega
      · intro he
        exfalso
        have : a = n := by omega
        rw [this, hn] at h
        exact CallOutcome.noConfusion h
  | case2 a r s t h hb =>
      intro han
      rw [safeApproveAux.eq_def, h]
      simp only [dif_pos hb]
      constructor
      · omega
      · intro he
        exfalso
        have : a = n := by omega
        rw [this, hn] at h
        exact CallOutcome.noConfusion h
  | case3 a r s t h hb ih =>
      intro han
      have hane : a ≠ n := fun he => by rw [he, hn] at h; exact CallOutcome.noConfusion h
      have ih2 := ih (by omega)
      rw [safeApproveAux.eq_def, h]
      simp only [dif_neg hb]
      simp only [dite_eq_ite] at ih2
      exact ih2
  | case4 a r s h hb =>
      intro han
      rw [safeApproveAux.eq_def, h]
      simp only [dif_pos hb]
      constructor
      · omega
      · intro he
        exfalso
        have : a = n := by omega
        rw [this, hn] at h
        exact CallOutcome.noConfusion h
  | case5 a r s h hb ih =>
      intro han
      have hane : a ≠ n := fun he => by rw [he, hn] at h; exact CallOutcome.noConfusion h
      have ih2 := ih (by omega)
      rw [safeApproveAux.eq_def, h]
      simp only [dif_neg hb]
      exact ih2
  | case6 a r s h hb =>
      intro han
      rw [safeApproveAux.eq_def, h]
      simp only [dif_pos hb]
      constructor
      · omega
      · intro he
        exfalso
        have : a = n := by omega
        rw [this, hn] at h
        exact CallOutcome.noConfusion h
  | case7 a r s h hb ih =>
      intro han
      have hane : a ≠ n := fun he => by rw [he, hn] at h; exact CallOutcome.noConfusion h
      have ih2 := ih (by omega)
      rw [safeApproveAux.eq_def, h]
      simp only [dif_neg hb]
      exact ih2
  | case8 a r s h hb =>
      intro han
      rw [safeApproveAux.eq_def, h]
      simp only [dif_pos hb]
      constructor
      · omega
      · intro he
        exfalso
        have : a = n := by omega
        rw [this, hn] at h
        exact CallOutcome.noConfusion h
  | case9 a r s h hb ih =>
      intro han
      have hane : a ≠ n := fun he => by rw [he, hn] at h; exact CallOutcome.noConfusion h
      have ih2 := ih (by omega)
      rw [safeApproveAux.eq_def, h]
      simp only [dif_neg hb]
      exact ih2
  | case10 a r s h =>
      intro han
      rw [safeApproveAux.eq_def, h]
      dsimp only
      exact ⟨by omega, fun _ => rfl⟩
  | case11 a r s h =>
      intro han
      rw [safeApproveAux.eq_def, h]
      dsimp only
      constructor
      · omega
      · intro he
        exfalso
        have : a = n := by omega
        rw [this, hn] at h
        exact CallOutcome.noConfusion h

/--
C6: if the remote call would raise `Forbidden` at attempt `n`,
`safe_approve` issues no attempt beyond `n` — it stops at that attempt
— and whenever attempt `n` is actually reached (it is the last one
issued), the function returns `False`: a permission denial never
triggers another remote call for that item.
-/
theorem C6_forbidden_no_retry (attempts : ℕ → CallOutcome) (n : ℕ)
    (hn : attempts n = CallOutcome.forbidden) :
    (safe_approve attempts).2.1 ≤ n + 1 ∧
    ((safe_approve attempts).2.1 = n + 1 → (safe_approve attempts).1 = false) :=
  safeApproveAux_forbidden_stops attempts n hn 0 0 0 (Nat.zero_le n)

/-- Witness for C6 at the concrete stream that raises `Forbidden` on
the very first attempt: one remote call is made and the result is
`False`. -/
theorem C6_forbidden_no_retry_witness :
    (fun _ : ℕ => CallOutcome.forbidden) 0 = CallOutcome.forbidden ∧
    ((safe_approve fun _ => CallOutcome.forbidden).2.1 ≤ 0 + 1 ∧
      ((safe_approve fun _ => CallOutcome.forbidden).2.1 = 0 + 1 →
        (safe_approve fun _ => CallOutcome.forbidden).1 = false)) :=
  ⟨rfl, C6_forbidden_no_retry (fun _ => CallOutcome.forbidden) 0 rfl⟩

/--
C7: `safe_approve` is total at its boundary: whatever the remote call
does on each attempt — success, or any raised exception, every one of
which is covered by a `CallOutcome` constructor including the
catch-all `otherExc` for the final `except Exception` arm — it
resolves to a boolean after at most 9 remote attempts, and never
propagates an exception.
-/
theorem C7_always_returns_bool (f : ℕ → CallOutcome) :
    ∃ (b : Bool) (attemptsMade slept : ℕ),
      safe_approve f = (b, attemptsMade, slept) ∧ attemptsMade ≤ 9 :=
  ⟨(safe_approve f).1, (safe_approve f).2.1, (safe_approve f).2.2, rfl,
    safeApproveAux_attempts_le f 0 0 0⟩

set_option maxRecDepth 10000 in
/--
C1 (failing-input evaluation): with cap `K = 5` over a remote pending
list of `M = 10` applicants (a single page) and every remote approval
succeeding, the per-entry cap check on app.py line 280 compares
`approved_total >= limit` with `approved_total` still 0 for the whole
page — it does not count jobs already queued this batch — so the run
enqueues all 10 jobs and performs 10 successful operations, not the
claimed at-most-5: the bot approves 10 users when asked to approve 5.
-/
theorem C1_cap_overshoot_eval :
    numEnqueues (bulk_approve_core (fun _ => true) (List.range 10) (some 5) 10).1
      = 10 ∧
    (bulk_approve_core (fun _ => true) (List.range 10) (some 5) 10).2
      = (10, true) ∧
    ¬ numEnqueues
        (bulk_approve_core (fun _ => true) (List.range 10) (some 5) 10).1 ≤ 5 := by
  refine ⟨by decide, by decide, by decide⟩

set_option maxRecDepth 100000 in
/--
C3 counterexample: in the 530-pending scenario with page size 200 and
no cap, the loop exits only when a fetch returns an empty page, so the
run issues a fourth `get_chat_join_requests` call (which returns 0
entries) — the claimed "exactly 3 page fetches" is false.
-/
theorem C3_three_fetches_false :
    ¬ numFetches (bulk_approve_core (fun _ => true) (List.range 530) none 10).1
        = 3 := by decide

set_option maxRecDepth 100000 in
/--
C3 (amended): for a group with 530 pending requests, page size 200 and
no cap, with every remote call succeeding, the run performs exactly 4
page fetches returning 200, 200, 130 and 0 entries — three non-empty
pages plus the final empty fetch that terminates the loop — and
reports `succeeded = 530`.
-/
theorem C3_530_pending_run :
    numFetches (bulk_approve_core (fun _ => true) (List.range 530) none 10).1
      = 4 ∧
    fetchSizes (bulk_approve_core (fun _ => true) (List.range 530) none 10).1
      = [200, 200, 130, 0] ∧
    (bulk_approve_core (fun _ => true) (List.range 530) none 10).2
      = (530, true) := by
  refine ⟨by decide, by decide, by decide⟩

/-- Helper: a run of enqueue events extends the recogniser's pending
queue. -/
theorem pagedTrace_enqueues (us : List ℕ) :
    ∀ (q : List ℕ) (es : List BulkEvent),
      pagedTrace (.enqueuePhase q) (us.map BulkEvent.enqueue ++ es)
        = pagedTrace (.enqueuePhase (q ++ us)) es := by
  induction us with
  | nil => intro q es; simp
  | cons u us ih =>
      intro q es
      simp only [List.map_cons, List.cons_append, pagedTrace]
      rw [ih (q ++ [u]) es]
      simp

/-- Helper: a run of consume events in queue order empties the
recogniser's pending queue and leads to the drain mark. -/
theorem pagedTrace_consume_run (okf : ℕ → Bool) :
    ∀ (us : List ℕ) (es : List BulkEvent),
      pagedTrace (afterConsume us)
        (us.map (fun u => BulkEvent.consume u (okf u)) ++ es)
      = pagedTrace .expectDrained es := by
  intro us
  induction us with
  | nil => intro es; rfl
  | cons v us ih =>
      intro es
      have h1 : afterConsume (v :: us) = .consumePhase (v :: us) := by
        simp [afterConsume]
      rw [h1]
      simp only [List.map_cons, List.cons_append, pagedTrace, List.append_eq]
      have h2 : afterConsume us
          = if us.isEmpty = true then PageSt.expectDrained
            else PageSt.consumePhase us := rfl
      rw [← h2, ih es]
      simp

/-- Helper: from the enqueue phase with a nonempty queue, consuming the
whole queue in order leads to the drain mark. -/
theorem pagedTrace_enqueue_to_drained (okf : ℕ → Bool) (v : ℕ) (us : List ℕ)
    (es : List BulkEvent) :
    pagedTrace (.enqueuePhase (v :: us))
      ((v :: us).map (fun u => BulkEvent.consume u (okf u)) ++ es)
      = pagedTrace .expectDrained es := by
  simp only [List.map_cons, List.cons_append, pagedTrace, List.append_eq]
  have h2 : afterConsume us
      = if us.isEmpty = true then PageSt.expectDrained
        else PageSt.consumePhase us := rfl
  rw [← h2, pagedTrace_consume_run okf us es]
  simp

/-- Helper: one full page block — fetch, all enqueues, all consumes,
drain, sentinels, join — is accepted and returns the recogniser to the
fetch-expecting state. -/
theorem pagedTrace_block (okf : ℕ → Bool) (n : ℕ) (v : ℕ) (us : List ℕ)
    (es : List BulkEvent) :
    pagedTrace .expectFetch
      (BulkEvent.fetch n :: (v :: us).map BulkEvent.enqueue ++
        ((v :: us).map (fun u => BulkEvent.consume u (okf u)) ++
          ([BulkEvent.drained, BulkEvent.sentinels, BulkEvent.joined] ++ es)))
      = pagedTrace .expectFetch es := by
  have h0 : pagedTrace .expectFetch
      (BulkEvent.fetch n :: (v :: us).map BulkEvent.enqueue ++
        ((v :: us).map (fun u => BulkEvent.consume u (okf u)) ++
          ([BulkEvent.drained, BulkEvent.sentinels, BulkEvent.joined] ++ es)))
      = pagedTrace (.enqueuePhase [])
        ((v :: us).map BulkEvent.enqueue ++
          ((v :: us).map (fun u => BulkEvent.consume u (okf u)) ++
            ([BulkEvent.drained, BulkEvent.sentinels, BulkEvent.joined] ++ es))) := rfl
  rw [h0, pagedTrace_enqueues (v :: us) []]
  simp only [List.nil_append]
  rw [pagedTrace_enqueue_to_drained okf v us]
  rfl

/--
C9: the bulk run respects the sequential-page discipline.  In every
trace `bulk_approve_core` can produce — any remote list, any cap, any
pattern of per-item successes, any fuel — the events are grouped into
well-formed page blocks: a page's fetch is followed by its enqueues,
every job enqueued for the page is consumed (queue fully drained) and
only then does the `drained` mark appear, followed by the sentinel
sends, then the worker join, and only after all that may the next
fetch occur.  This is the order in which `bulk_approve_core` awaits
`queue.join()` (line 293), the sentinel `put_nowait`s (294–295),
`asyncio.gather` (296) and the next `get_chat_join_requests` (263).
-/
theorem C9_sequential_pages (okf : ℕ → Bool) (limit : Option ℕ) :
    ∀ (fuel : ℕ) (remote : List ℕ) (tot : ℕ),
      pagedTrace .expectFetch (bulkLoop okf limit fuel remote tot).1 = true := by
  intro fuel
  induction fuel with
  | zero => intro remote tot; rfl
  | succ fuel ih =>
      intro remote tot
      rw [bulkLoop]
      by_cases h1 : (remote.take 200).isEmpty
      · simp only [h1, if_pos rfl]
        rfl
      · simp only [h1, Bool.false_eq_true, if_false]
        by_cases h2 : capReached limit tot
        · simp only [h2, if_pos rfl, List.isEmpty_nil, List.map_nil]
          rfl
        · simp only [h2, Bool.false_eq_true, if_false, h1]
          obtain ⟨v, us, hvu⟩ : ∃ v us, remote.take 200 = v :: us := by
            cases hr : remote.take 200 with
            | nil => rw [hr] at h1; simp at h1
            | cons v us => exact ⟨v, us, rfl⟩
          rw [hvu]
          by_cases h3 : capReached limit (tot + ((v :: us).filter okf).length)
          · simp only [h3, if_true]
            have hb := pagedTrace_block okf (v :: us).length v us []
            simp only [List.append_nil] at hb
            simp only [List.cons_append, List.append_assoc] at hb ⊢
            rw [hb]
            rfl
          · simp only [h3, Bool.false_eq_true, if_false]
            have hb := pagedTrace_block okf (v :: us).length v us
              ((bulkLoop okf limit fuel
                (List.filter (fun u => !okf u) (v :: us) ++ List.drop 200 remote)
                (tot + (List.filter okf (v :: us)).length)).1)
            simp only [List.cons_append, List.append_assoc, List.nil_append] at hb ⊢
            rw [hb]
            exact ih _ _

/-- Helper: a non-overlapping `wait` call admits at `max now _next` and
sets `_next` to `max (_next + min_interval) (admission time)`. -/
theorem RateLimiter.wait_eq (l : RateLimiter) (now : ℚ) :
    l.wait now = (max now l.next,
      ⟨l.min_interval, max (l.next + l.min_interval) (max now l.next)⟩) := by
  unfold RateLimiter.wait RateLimiter.checkPhase RateLimiter.resumePhase
  by_cases h : now < l.next
  · simp only [if_pos h]
    rw [max_eq_right (le_of_lt h)]
  · simp only [if_neg h]
    rw [max_eq_left (le_of_not_lt h)]

/-- Helper: `wait` preserves the interval. -/
theorem RateLimiter.wait_min_interval (l : RateLimiter) (now : ℚ) :
    (l.wait now).2.min_interval = l.min_interval := by
  rw [RateLimiter.wait_eq]

/-- Helper: `_next` advances by at least one interval per call. -/
theorem RateLimiter.wait_next_advance (l : RateLimiter) (now : ℚ) :
    l.next + l.min_interval ≤ (l.wait now).2.next := by
  rw [RateLimiter.wait_eq]
  exact le_max_left _ _

/-- Helper: the admission instant is at least the pending `_next`. -/
theorem RateLimiter.wait_admit_ge (l : RateLimiter) (now : ℚ) :
    l.next ≤ (l.wait now).1 := by
  rw [RateLimiter.wait_eq]
  exact le_max_right _ _

/-- Helper: after a call, `_next` is at least the admission instant. -/
theorem RateLimiter.wait_next_ge_admit (l : RateLimiter) (now : ℚ) :
    (l.wait now).1 ≤ (l.wait now).2.next := by
  rw [RateLimiter.wait_eq]
  exact le_max_right _ _

/-- Helper: the `k`-th admission of a non-overlapping call sequence
happens no earlier than `_next + k·min_interval`: `_next` advances by
at least one interval per admission. -/
theorem admitTimes_lower (as : List ℚ) :
    ∀ (l : RateLimiter), 0 ≤ l.min_interval →
      ∀ (k : ℕ) (hk : k < (admitTimes l as).length),
        l.next + k * l.min_interval ≤ (admitTimes l as).get ⟨k, hk⟩ := by
  induction as with
  | nil => intro l hd k hk; simp [admitTimes] at hk
  | cons a as ih =>
      intro l hd k hk
      cases k with
      | zero =>
          simp only [admitTimes, List.get]
          simpa using RateLimiter.wait_admit_ge l a
      | succ k =>
          simp only [admitTimes, List.get]
          have hk2 : k < (admitTimes (l.wait a).2 as).length := by
            simpa [admitTimes] using hk
          have h1 := ih (l.wait a).2
            (by rw [RateLimiter.wait_min_interval]; exact hd) k hk2
          rw [RateLimiter.wait_min_interval] at h1
          have h2 : l.next + (k + 1 : ℕ) * l.min_interval ≤
              (l.wait a).2.next + k * l.min_interval := by
            have := RateLimiter.wait_next_advance l a
            push_cast
            nlinarith [this]
          exact le_trans h2 h1

/-- Helper: admissions `i < j` of one non-overlapping call sequence are
at least `(j - i - 1)` intervals apart. -/
theorem admitTimes_spacing (as : List ℚ) :
    ∀ (l : RateLimiter), 0 ≤ l.min_interval →
      ∀ (i j : ℕ) (hij : i < j) (hj : j < (admitTimes l as).length),
        (admitTimes l as).get ⟨i, lt_trans hij hj⟩ +
            ((j - i - 1 : ℕ) : ℚ) * l.min_interval ≤
          (admitTimes l as).get ⟨j, hj⟩ := by
  induction as with
  | nil => intro l hd i j hij hj; simp [admitTimes] at hj
  | cons a as ih =>
      intro l hd i j hij hj
      cases i with
      | zero =>
          cases j with
          | zero => exact absurd hij (lt_irrefl 0)
          | succ j =>
              simp only [admitTimes, List.get]
              have hj2 : j < (admitTimes (l.wait a).2 as).length := by
                simpa [admitTimes] using hj
              have h1 := admitTimes_lower as (l.wait a).2
                (by rw [RateLimiter.wait_min_interval]; exact hd) j hj2
              rw [RateLimiter.wait_min_interval] at h1
              have h2 := RateLimiter.wait_next_ge_admit l a
              have h3 : (↑(j + 1 - 0 - 1) : ℚ) = (j : ℚ) := by push_cast; ring
              rw [h3]
              calc (l.wait a).1 + (j : ℚ) * l.min_interval
                  ≤ (l.wait a).2.next + (j : ℚ) * l.min_interval := by linarith
                _ ≤ _ := h1
      | succ i =>
          cases j with
          | zero => exact absurd hij (by omega)
          | succ j =>
              simp only [admitTimes, List.get]
              have hij2 : i < j := by omega
              have hj2 : j < (admitTimes (l.wait a).2 as).length := by
                simpa [admitTimes] using hj
              have h1 := ih (l.wait a).2
                (by rw [RateLimiter.wait_min_interval]; exact hd) i j hij2 hj2
              rw [RateLimiter.wait_min_interval] at h1
              have h3 : ((j + 1 - (i + 1) - 1 : ℕ) : ℚ) = ((j - i - 1 : ℕ) : ℚ) := by
                congr 1
                omega
              rw [h3]
              exact h1

/--
C2 (amended, sequential part): when `RateLimiter.wait` calls do not
overlap — each call's check and resume run without another caller in
between — the admission instants are rate-bounded: if the `i`-th and
`j`-th admissions (`i < j`) of a limiter configured with integer
ceiling `C ≥ 1` lie less than one second apart, then `j - i ≤ C`, i.e.
any rolling 1-second window contains at most `C + 1` admissions.
-/
theorem C2_sequential_window_bound (C : ℕ) (hC : 1 ≤ C) (t0 : ℚ)
    (as : List ℚ) (i j : ℕ) (hij : i < j)
    (hj : j < (admitTimes (RateLimiter.init C t0) as).length)
    (hwin : (admitTimes (RateLimiter.init C t0) as).getD j 0 -
        (admitTimes (RateLimiter.init C t0) as).getD i 0 < 1) :
    j - i ≤ C := by
  have hCpos : (0:ℚ) < C := by
    have : (1:ℚ) ≤ C := by exact_mod_cast hC
    linarith
  have hmi : (RateLimiter.init C t0).min_interval = 1 / (C : ℚ) := by
    rw [RateLimiter.init]
    rw [max_eq_right (show (1:ℚ) ≤ C by exact_mod_cast hC)]
  have hd : 0 ≤ (RateLimiter.init C t0).min_interval := by
    rw [hmi]
    positivity
  have hsp := admitTimes_spacing as (RateLimiter.init C t0) hd i j hij hj
  rw [List.getD_eq_getElem _ _ hj,
      List.getD_eq_getElem _ _ (lt_trans hij hj)] at hwin
  rw [List.get_eq_getElem, List.get_eq_getElem] at hsp
  rw [hmi] at hsp
  have hlt : ((j - i - 1 : ℕ) : ℚ) * (1 / (C : ℚ)) < 1 := by linarith
  rw [mul_one_div, div_lt_one hCpos] at hlt
  have : j - i - 1 < C := by exact_mod_cast hlt
  omega

/-- Witness for the sequential window bound at `C = 1`,
arrivals `0, 10, 10`: admissions happen at `0, 10, 10`; the 1st and 2nd
admissions are less than a second apart and indeed `2 - 1 ≤ 1`. -/
theorem C2_sequential_window_bound_witness :
    (1 ≤ 1 ∧ 1 < 2 ∧
      2 < (admitTimes (RateLimiter.init 1 0) [0, 10, 10]).length ∧
      (admitTimes (RateLimiter.init 1 0) [0, 10, 10]).getD 2 0 -
        (admitTimes (RateLimiter.init 1 0) [0, 10, 10]).getD 1 0 < 1) ∧
    2 - 1 ≤ 1 := by
  have hts : admitTimes (RateLimiter.init 1 0) [0, 10, 10] = [0, 10, 10] := by
    norm_num [admitTimes, RateLimiter.wait_eq, RateLimiter.init]
  have h3 : 2 < (admitTimes (RateLimiter.init 1 0) [0, 10, 10]).length := by
    rw [hts]; norm_num
  have h4 : (admitTimes (RateLimiter.init 1 0) [0, 10, 10]).getD 2 0 -
      (admitTimes (RateLimiter.init 1 0) [0, 10, 10]).getD 1 0 < 1 := by
    rw [hts]; norm_num
  exact ⟨⟨le_refl 1, one_lt_two, h3, h4⟩,
    C2_sequential_window_bound 1 (le_refl 1) 0 [0, 10, 10] 1 2 one_lt_two h3 h4⟩

/--
C2 counterexample (concurrent burst): the claim fails as stated.  Four
tasks calling `wait` simultaneously at time 0 on a fresh `rps = 1`
limiter: the first finds `_next = 0` and admits at once; the other
three all run the line-71 check against the same `_next = 1` before
any of them sleeps, so all three sleep until `t = 1` and are then all
admitted at `t = 1` — the check is never re-run after the sleep.  The
rolling 1-second window starting at `t = 1` contains 3 admissions,
exceeding the ceiling `C = 1` even allowing one extra admission of
scheduling slack; with `N` burst callers the same schedule yields
`N - 1` simultaneous admissions, so no fixed slack bounds the excess.
-/
theorem C2_burst_counterexample :
    (RateLimiter.init 1 0).checkPhase 0 = none ∧
    ((RateLimiter.init 1 0).resumePhase 0).2.checkPhase 0
      = some ((RateLimiter.init 1 0).resumePhase 0).2.next ∧
    burstAdmissions = [0, 1, 1, 1] ∧
    admissionsInWindow burstAdmissions 1 = 3 ∧
    ¬ (3 ≤ 1 + 1) := by
  refine ⟨?_, ?_, ?_, ?_, by norm_num⟩
  · norm_num [RateLimiter.checkPhase, RateLimiter.init]
  · norm_num [RateLimiter.checkPhase, RateLimiter.resumePhase, RateLimiter.init]
  · norm_num [burstAdmissions, RateLimiter.init, RateLimiter.resumePhase]
  · have hb : burstAdmissions = [0, 1, 1, 1] := by
      norm_num [burstAdmissions, RateLimiter.init, RateLimiter.resumePhase]
    rw [hb]
    norm_num [admissionsInWindow]

/-- Helper: looking up a key that is not among an association list's
keys yields `none`. -/
theorem lookup_eq_none_of_not_mem (k : ℕ) :
    ∀ (d : PendingDict), k ∉ d.map Prod.fst → List.lookup k d = none := by
  intro d
  induction d with
  | nil => intro _; rfl
  | cons a d ih =>
      intro hk
      simp only [List.map_cons, List.mem_cons, not_or] at hk
      obtain ⟨hk1, hk2⟩ := hk
      obtain ⟨a1, a2⟩ := a
      rw [List.lookup_cons]
      have hbeq : (k == a1) = false := by
        simpa using hk1
      rw [hbeq]
      exact ih hk2

/-- Helper: with unique keys (a Python dict), popping key `k` removes
every trace of it — a later lookup of `k` yields `none`. -/
theorem lookup_eraseP_self (k : ℕ) :
    ∀ (d : PendingDict), (d.map Prod.fst).Nodup →
      List.lookup k (d.eraseP (fun p => p.1 == k)) = none := by
  intro d
  induction d with
  | nil => intro _; rfl
  | cons a d ih =>
      intro hnd
      simp only [List.map_cons, List.nodup_cons] at hnd
      obtain ⟨ha, hd⟩ := hnd
      by_cases h : (a.1 == k) = true
      · rw [@List.eraseP_cons_of_pos _ a d (fun p => p.1 == k) h]
        have hk : a.1 = k := by simpa using h
        apply lookup_eq_none_of_not_mem
        rw [← hk]
        exact ha
      · rw [@List.eraseP_cons_of_neg _ a d (fun p => p.1 == k) h]
        obtain ⟨a1, a2⟩ := a
        rw [List.lookup_cons]
        have hbeq : (k == a1) = false := by
          simp only [beq_eq_false_iff_ne, ne_eq]
          intro he
          exact h (by simp [he.symm])
        rw [hbeq]
        exact ih hd

/-- Helper: a remote call that succeeds at once makes `safe_approve`
return `True` after exactly one attempt and no sleeping. -/
theorem safe_approve_immediate_success :
    safe_approve (fun _ => CallOutcome.success) = (true, 1, 0) := by
  rw [safe_approve, safeApproveAux.eq_def]

/--
C8: single-item approve double-tap.  If the registry holds applicant
`uid` with stored chat `chat`, an admin's first approve callback pops
the registry entry (a later lookup of `uid` finds nothing), issues
exactly one remote approval attempt (which succeeds), and reports the
user approved; replaying the identical callback against the resulting
registry reports "İstek zaten işlenmiş." ("request already handled"),
leaves the registry unchanged, and performs zero remote mutations of
either kind.
-/
theorem C8_double_tap (admins : List ℕ) (caller uid chat : ℕ) (u : TgUser)
    (pending : PendingDict)
    (hadmin : caller ∈ admins)
    (hnd : (pending.map Prod.fst).Nodup)
    (hfind : List.lookup uid pending = some (chat, u)) :
    button_handler admins caller (some ("approve", chat, uid)) pending
        (fun _ => CallOutcome.success) none
      = ⟨some ("✅ " ++ u.full_name ++ " onaylandı."),
         pending.eraseP (fun p => p.1 == uid), 1, 0⟩ ∧
    List.lookup uid (pending.eraseP (fun p => p.1 == uid)) = none ∧
    button_handler admins caller (some ("approve", chat, uid))
        (pending.eraseP (fun p => p.1 == uid))
        (fun _ => CallOutcome.success) none
      = ⟨some "İstek zaten işlenmiş.",
         pending.eraseP (fun p => p.1 == uid), 0, 0⟩ := by
  have hgone := lookup_eraseP_self uid pending hnd
  refine ⟨?_, hgone, ?_⟩
  · rw [button_handler]
    rw [if_pos hadmin]
    simp [dictPop, hfind, safe_approve_immediate_success]
  · rw [button_handler]
    rw [if_pos hadmin]
    simp only [dictPop, hgone]

/--
C10: `button_handler` pops the registry entry (app.py line 204) before
comparing the callback's chat id with the stored one (line 205).
Hence a callback for a known applicant whose chat id does not match —
any action, any outcomes — makes no remote call and replies
"Veri uyuşmuyor.", yet permanently consumes the entry: the resulting
registry no longer holds `uid`, and every later callback for that
applicant replies "İstek zaten işlenmiş." with no remote mutation.
-/
theorem C10_mismatch_consumes_entry (admins : List ℕ) (caller uid g c : ℕ)
    (u : TgUser) (pending : PendingDict) (action : String)
    (outcomes : ℕ → CallOutcome) (declineErr : Option String)
    (hadmin : caller ∈ admins)
    (hnd : (pending.map Prod.fst).Nodup)
    (hfind : List.lookup uid pending = some (g, u))
    (hne : c ≠ g) :
    button_handler admins caller (some (action, c, uid)) pending outcomes
        declineErr
      = ⟨some "Veri uyuşmuyor.", pending.eraseP (fun p => p.1 == uid), 0, 0⟩ ∧
    List.lookup uid (pending.eraseP (fun p => p.1 == uid)) = none ∧
    ∀ (action2 : String) (c2 : ℕ) (outcomes2 : ℕ → CallOutcome)
      (declineErr2 : Option String),
      button_handler admins caller (some (action2, c2, uid))
          (pending.eraseP (fun p => p.1 == uid)) outcomes2 declineErr2
        = ⟨some "İstek zaten işlenmiş.",
           pending.eraseP (fun p => p.1 == uid), 0, 0⟩ := by
  have hgone := lookup_eraseP_self uid pending hnd
  refine ⟨?_, hgone, ?_⟩
  · rw [button_handler]
    rw [if_pos hadmin]
    simp [dictPop, hfind, hne]
  · intro action2 c2 outcomes2 declineErr2
    rw [button_handler]
    rw [if_pos hadmin]
    simp [dictPop, hgone]

/-- Witness for C8 at a concrete registry: admin 1, applicant 7
pending for chat 5, both callbacks `approve:5:7`. -/
theorem C8_double_tap_witness :
    ((1 : ℕ) ∈ [1] ∧
      ((([(7, 5, TgUser.mk 7 "Ali" "Ali Veli")] : PendingDict)).map Prod.fst).Nodup ∧
      List.lookup 7 ([(7, 5, TgUser.mk 7 "Ali" "Ali Veli")] : PendingDict)
        = some (5, TgUser.mk 7 "Ali" "Ali Veli")) ∧
    (button_handler [1] 1 (some ("approve", 5, 7))
        [(7, 5, TgUser.mk 7 "Ali" "Ali Veli")] (fun _ => CallOutcome.success) none
      = ⟨some ("✅ " ++ (TgUser.mk 7 "Ali" "Ali Veli").full_name ++ " onaylandı."),
         ([(7, 5, TgUser.mk 7 "Ali" "Ali Veli")] : PendingDict).eraseP
           (fun p => p.1 == 7), 1, 0⟩ ∧
      List.lookup 7 (([(7, 5, TgUser.mk 7 "Ali" "Ali Veli")] : PendingDict).eraseP
          (fun p => p.1 == 7)) = none ∧
      button_handler [1] 1 (some ("approve", 5, 7))
          (([(7, 5, TgUser.mk 7 "Ali" "Ali Veli")] : PendingDict).eraseP
            (fun p => p.1 == 7)) (fun _ => CallOutcome.success) none
        = ⟨some "İstek zaten işlenmiş.",
           ([(7, 5, TgUser.mk 7 "Ali" "Ali Veli")] : PendingDict).eraseP
             (fun p => p.1 == 7), 0, 0⟩) :=
  ⟨⟨by simp, by simp, rfl⟩,
    C8_double_tap [1] 1 7 5 (TgUser.mk 7 "Ali" "Ali Veli")
      [(7, 5, TgUser.mk 7 "Ali" "Ali Veli")] (by simp) (by simp) rfl⟩

/-- Witness for C10 at a concrete registry: admin 1, applicant 7
stored for chat 5, callback claims chat 6. -/
theorem C10_mismatch_witness :
    ((1 : ℕ) ∈ [1] ∧
      ((([(7, 5, TgUser.mk 7 "Ali" "Ali Veli")] : PendingDict)).map Prod.fst).Nodup ∧
      List.lookup 7 ([(7, 5, TgUser.mk 7 "Ali" "Ali Veli")] : PendingDict)
        = some (5, TgUser.mk 7 "Ali" "Ali Veli") ∧ (6 : ℕ) ≠ 5) ∧
    (button_handler [1] 1 (some ("approve", 6, 7))
        [(7, 5, TgUser.mk 7 "Ali" "Ali Veli")] (fun _ => CallOutcome.success) none
      = ⟨some "Veri uyuşmuyor.",
         ([(7, 5, TgUser.mk 7 "Ali" "Ali Veli")] : PendingDict).eraseP
           (fun p => p.1 == 7), 0, 0⟩ ∧
      List.lookup 7 (([(7, 5, TgUser.mk 7 "Ali" "Ali Veli")] : PendingDict).eraseP
          (fun p => p.1 == 7)) = none ∧
      ∀ (action2 : String) (c2 : ℕ) (outcomes2 : ℕ → CallOutcome)
        (declineErr2 : Option String),
        button_handler [1] 1 (some (action2, c2, 7))
            (([(7, 5, TgUser.mk 7 "Ali" "Ali Veli")] : PendingDict).eraseP
              (fun p => p.1 == 7)) outcomes2 declineErr2
          = ⟨some "İstek zaten işlenmiş.",
             ([(7, 5, TgUser.mk 7 "Ali" "Ali Veli")] : PendingDict).eraseP
               (fun p => p.1 == 7), 0, 0⟩) :=
  ⟨⟨by simp, by simp, rfl, by simp⟩,
    C10_mismatch_consumes_entry [1] 1 7 5 6 (TgUser.mk 7 "Ali" "Ali Veli")
      [(7, 5, TgUser.mk 7 "Ali" "Ali Veli")] "approve"
      (fun _ => CallOutcome.success) none (by simp) (by simp) rfl (by simp)⟩
